import Mathlib

/-!
Shallow embedding of `src/database_access.py` (class `Database`), a
persistence layer over one SQLite table `activity` with columns
(GuildID, UserID, timestamp, whitelisted) and primary key
(GuildID, UserID).

The table is modelled as a list of rows in scan order.  Each method of
the Python class becomes a pure function; methods that may commit or
skip the commit (depending on `cursor.rowcount`) return the new store
together with a `Bool` that is `true` exactly when the connection was
committed, and read-only methods return the (unchanged) store together
with their result, mirroring the SELECT-then-close-without-commit code
paths.  SQLite specifics used by the code are modelled as follows:

* `INSERT OR REPLACE` deletes every row that conflicts on the primary
  key and appends the fresh row;
* `INSERT OR IGNORE` appends the row iff no row with the same key
  exists, and reports `rowcount = 0` otherwise;
* `DELETE` / `UPDATE` report as `rowcount` the number of matched rows;
  `executemany` accumulates the row counts of its executions, so an
  empty parameter list leaves `rowcount ≤ 0`;
* stored booleans read back as `1` / `0`, so the Python comparison
  `fetchone() == (1,)` holds iff a row with the key exists and its
  `whitelisted` column is true;
* `ORDER BY timestamp DESC` returns some permutation of the selected
  rows that is sorted by descending timestamp (SQLite guarantees no
  more); we realise it with an insertion sort.
-/

structure Record where
  guildId : Int
  userId : Int
  timestamp : Int
  whitelisted : Bool
deriving DecidableEq, Repr

abbrev Store := List Record

/-- Row matches the composite primary key (GuildID, UserID). -/
def keyMatch (g u : Int) (r : Record) : Bool :=
  r.guildId == g && r.userId == u

/-- SQLite INSERT OR REPLACE: delete the rows conflicting on the
primary key, then append the new row. -/
def insertOrReplace (s : Store) (r : Record) : Store :=
  (s.filter fun q => !(keyMatch r.guildId r.userId q)) ++ [r]

/-- Insertion step of the model of ORDER BY timestamp DESC. -/
def insertByTimeDesc (r : Record) : List Record → List Record
  | [] => [r]
  | q :: qs => if r.timestamp ≤ q.timestamp then q :: insertByTimeDesc r qs
               else r :: q :: qs

/-- Model of ORDER BY timestamp DESC: insertion sort, descending. -/
def sortByTimeDesc (l : List Record) : List Record :=
  l.foldr insertByTimeDesc []

namespace Database

/-- From `Database.make_or_update_entry`: when `white` is false, read
the stored whitelisted flag for the key (the Python code compares
`fetchone()` with `(1,)`) and keep it; then INSERT OR REPLACE the row
with the resolved flag; always commit. -/
def make_or_update_entry (s : Store) (serverid userid timestamp : Int)
    (white : Bool) : Store × Bool :=
  let w : Bool :=
    if !white then
      match s.find? (keyMatch serverid userid) with
      | some r => if r.whitelisted then true else white
      | none => white
    else white
  (insertOrReplace s ⟨serverid, userid, timestamp, w⟩, true)

/-- From `Database.make_needed_entry`: INSERT OR IGNORE the row with
`whitelisted = False`; commit iff `cursor.rowcount > 0`, i.e. iff the
row was actually inserted. -/
def make_needed_entry (s : Store) (serverid userid timestamp : Int) :
    Store × Bool :=
  if s.any (keyMatch serverid userid) then (s, false)
  else (s ++ [⟨serverid, userid, timestamp, false⟩], true)

/-- From `Database.call_memberids_one_server`: SELECT UserID WHERE
GuildID = ?; close without commit. -/
def call_memberids_one_server (s : Store) (serverid : Int) :
    Store × List Int :=
  (s, (s.filter fun r => r.guildId == serverid).map Record.userId)

/-- From `Database.delete_single_user`: DELETE WHERE GuildID = ? AND
UserID = ?; always commit. -/
def delete_single_user (s : Store) (serverid userid : Int) : Store × Bool :=
  ((s.filter fun r => !(keyMatch serverid userid r)), true)

/-- From `Database.delete_single_server`: DELETE WHERE GuildID = ?;
always commit. -/
def delete_single_server (s : Store) (serverid : Int) : Store × Bool :=
  ((s.filter fun r => !(r.guildId == serverid)), true)

/-- From `Database.call_memberids_inactive_users`: SELECT UserID WHERE
GuildID = ? AND timestamp < ? AND NOT whitelisted; close without
commit. -/
def call_memberids_inactive_users (s : Store) (serverid min_activity : Int) :
    Store × List Int :=
  (s, (s.filter fun r =>
        r.guildId == serverid && decide (r.timestamp < min_activity)
          && !r.whitelisted).map Record.userId)

/-- From `Database.call_whitelisted_ids`: SELECT UserID WHERE
GuildID = ? AND whitelisted; close without commit. -/
def call_whitelisted_ids (s : Store) (serverid : Int) : Store × List Int :=
  (s, (s.filter fun r => r.guildId == serverid && r.whitelisted).map
        Record.userId)

/-- From `Database.remove_whitelist_status`: UPDATE SET whitelisted =
False WHERE GuildID = ? AND UserID = ?; commit iff the update matched
at least one row. -/
def remove_whitelist_status (s : Store) (serverid userid : Int) :
    Store × Bool :=
  ((s.map fun r => if keyMatch serverid userid r then
      { r with whitelisted := false } else r),
   decide (0 < (s.filter (keyMatch serverid userid)).length))

/-- From `Database.call_all_server_ids_once`: SELECT DISTINCT GuildID;
close without commit.  DISTINCT keeps one sample per guild id in scan
order. -/
def call_all_server_ids_once (s : Store) : Store × List Int :=
  (s, (s.map Record.guildId).foldl
        (fun acc g => if acc.contains g then acc else acc ++ [g]) [])

/-- One execution of `DELETE FROM activity WHERE GuildID = ?` inside
`executemany`, accumulating the row count. -/
def delServerStep (acc : Store × Nat) (g : Int) : Store × Nat :=
  ((acc.1.filter fun r => !(r.guildId == g)),
   acc.2 + (acc.1.filter fun r => r.guildId == g).length)

/-- From `Database.delete_many_servers`: executemany DELETE WHERE
GuildID = ?; commit iff the accumulated rowcount is positive. -/
def delete_many_servers (s : Store) (server_ids : List Int) : Store × Bool :=
  let res := server_ids.foldl delServerStep (s, 0)
  (res.1, decide (0 < res.2))

/-- One execution of the INSERT OR IGNORE inside `executemany` of
`make_needed_entries`, accumulating the row count. -/
def ensureStep (acc : Store × Nat) (e : Int × Int × Int × Bool) :
    Store × Nat :=
  if acc.1.any (keyMatch e.1 e.2.1) then acc
  else (acc.1 ++ [⟨e.1, e.2.1, e.2.2.1, e.2.2.2⟩], acc.2 + 1)

/-- From `Database.make_needed_entries`: executemany INSERT OR IGNORE
over (GuildID, UserID, timestamp, whitelisted) tuples; commit iff the
accumulated rowcount is positive. -/
def make_needed_entries (s : Store) (entries : List (Int × Int × Int × Bool)) :
    Store × Bool :=
  let res := entries.foldl ensureStep (s, 0)
  (res.1, decide (0 < res.2))

/-- One execution of `DELETE FROM activity WHERE GuildID = ? AND
UserID = ?` inside `executemany`, accumulating the row count. -/
def delMemberStep (acc : Store × Nat) (p : Int × Int) : Store × Nat :=
  ((acc.1.filter fun r => !(keyMatch p.1 p.2 r)),
   acc.2 + (acc.1.filter (keyMatch p.1 p.2)).length)

/-- From `Database.delete_many_members`: executemany DELETE WHERE
GuildID = ? AND UserID = ?; commit iff the accumulated rowcount is
positive. -/
def delete_many_members (s : Store) (pairs : List (Int × Int)) :
    Store × Bool :=
  let res := pairs.foldl delMemberStep (s, 0)
  (res.1, decide (0 < res.2))

/-- From `Database.get_inactive_userids_and_timestamps`: SELECT UserID,
timestamp WHERE GuildID = ? AND timestamp < ? AND NOT whitelisted ORDER
BY timestamp DESC; close without commit. -/
def get_inactive_userids_and_timestamps (s : Store)
    (serverid min_activity : Int) : Store × List (Int × Int) :=
  (s, (sortByTimeDesc (s.filter fun r =>
        r.guildId == serverid && decide (r.timestamp < min_activity)
          && !r.whitelisted)).map fun r => (r.userId, r.timestamp))

end Database

/-- Primary-key invariant of the `activity` table: no two rows share
(GuildID, UserID).  Every store reachable through the SQLite schema
satisfies it. -/
def uniqueKeys : Store → Bool
  | [] => true
  | r :: rs => !(rs.any (keyMatch r.guildId r.userId)) && uniqueKeys rs

/-! Helper lemmas about the embedding. -/

theorem keyMatch_iff (g u : Int) (r : Record) :
    keyMatch g u r = true ↔ (r.guildId = g ∧ r.userId = u) := by
  simp [keyMatch]

theorem mem_insertOrReplace_key (s : Store) (rec : Record) :
    ∀ r ∈ insertOrReplace s rec,
      keyMatch rec.guildId rec.userId r = true → r = rec := by
  intro r hr hk
  rcases List.mem_append.mp hr with h | h
  · have := (List.mem_filter.mp h).2
    simp [hk] at this
  · simpa using h

theorem filter_insertOrReplace_key (s : Store) (rec : Record) :
    (insertOrReplace s rec).filter (keyMatch rec.guildId rec.userId)
      = [rec] := by
  unfold insertOrReplace
  rw [List.filter_append, List.filter_filter]
  simp [keyMatch]

/-! Claim theorems. -/

/-- C9: Empty batches are no-ops, not errors: for every store state,
calling deleteGuilds (`delete_many_servers`), deleteMembers
(`delete_many_members`), or ensureEntries (`make_needed_entries`) with
an empty input sequence raises no error (the functions are total),
leaves the store unchanged, and skips the durability commit. -/
theorem empty_batches_noop (s : Store) :
    Database.delete_many_servers s [] = (s, false) ∧
    Database.delete_many_members s [] = (s, false) ∧
    Database.make_needed_entries s [] = (s, false) :=
  ⟨rfl, rfl, rfl⟩

/-- C10: Read operations never modify the store: for every store state
and all arguments, each of listMemberIds, listInactiveMemberIds,
listInactiveMembersWithTimestamp, listWhitelistedMemberIds and
listAllGuildIds returns the store exactly as it was (the code issues
SELECT statements only and closes the connection without committing,
which the embedding mirrors in the first component). -/
theorem reads_leave_store_unchanged (s : Store) (g thr : Int) :
    (Database.call_memberids_one_server s g).1 = s ∧
    (Database.call_memberids_inactive_users s g thr).1 = s ∧
    (Database.get_inactive_userids_and_timestamps s g thr).1 = s ∧
    (Database.call_whitelisted_ids s g).1 = s ∧
    (Database.call_all_server_ids_once s).1 = s :=
  ⟨rfl, rfl, rfl, rfl, rfl⟩

/-- C7: deleteGuild wipes a guild completely: after
`delete_single_server s g` no record with guild key `g` remains, and a
subsequent `call_memberids_one_server` for `g` returns the empty
sequence. -/
theorem deleteGuild_wipes_guild (s : Store) (g : Int) :
    (∀ r ∈ (Database.delete_single_server s g).1, ¬(r.guildId = g)) ∧
    (Database.call_memberids_one_server
        (Database.delete_single_server s g).1 g).2 = [] := by
  constructor
  · intro r hr
    have := (List.mem_filter.mp hr).2
    simpa using this
  · show ((((s.filter _).filter _).map _ : List Int) = [])
    rw [List.filter_filter]
    simp

/-- C2: ensureEntry inserts only into an absent key: `make_needed_entry`
creates (g, u, t, whitelisted = false) iff no record for (g, u) exists,
otherwise it returns the store completely unchanged and skips the
durability commit; hence two calls with timestamps t1 then t2 starting
from a store without the key leave the stored timestamp equal to t1. -/
theorem ensureEntry_insert_only_absent (s : Store) (g u t : Int) :
    (s.any (keyMatch g u) = true →
        Database.make_needed_entry s g u t = (s, false)) ∧
    (s.any (keyMatch g u) = false →
        Database.make_needed_entry s g u t
          = (s ++ [⟨g, u, t, false⟩], true)) ∧
    (s.any (keyMatch g u) = false → ∀ t1 t2 : Int,
        ∀ r ∈ (Database.make_needed_entry
                (Database.make_needed_entry s g u t1).1 g u t2).1,
          keyMatch g u r = true → r.timestamp = t1) := by
  refine ⟨?_, ?_, ?_⟩
  · intro h
    simp [Database.make_needed_entry, h]
  · intro h
    simp [Database.make_needed_entry, h]
  · intro h t1 t2 r hr hk
    have h1 : (Database.make_needed_entry s g u t1).1
        = s ++ [⟨g, u, t1, false⟩] := by
      simp [Database.make_needed_entry, h]
    have h2 : ((s ++ [⟨g, u, t1, false⟩] : Store).any (keyMatch g u))
        = true := by
      simp [keyMatch]
    rw [h1] at hr
    have h3 : (Database.make_needed_entry
        (s ++ [⟨g, u, t1, false⟩]) g u t2).1 = s ++ [⟨g, u, t1, false⟩] := by
      simp [Database.make_needed_entry, h2]
    rw [h3] at hr
    rcases List.mem_append.mp hr with h4 | h4
    · have h5 : keyMatch g u r = false := by
        have := List.any_eq_false.mp (by simpa using h) r h4
        simpa using this
      rw [h5] at hk
      cases hk
    · have : r = (⟨g, u, t1, false⟩ : Record) := by simpa using h4
      rw [this]

/-- C2 witness: instantiating `ensureEntry_insert_only_absent` on the
empty store at (1, 2, 3). -/
theorem ensureEntry_witness :
    ([] : Store).any (keyMatch 1 2) = false ∧
    Database.make_needed_entry [] 1 2 3 = ([⟨1, 2, 3, false⟩], true) :=
  ⟨rfl, (ensureEntry_insert_only_absent [] 1 2 3).2.1 rfl⟩

/-- C3: revokeWhitelist postcondition: if no record for (g, u) exists
the call is a no-op that leaves the store unchanged and skips the
commit; if one exists the commit happens; in every case each record
for (g, u) in the resulting store has whitelisted = false, so a
subsequent whitelist read (`call_whitelisted_ids`) does not list u. -/
theorem revokeWhitelist_postcondition (s : Store) (g u : Int) :
    (s.any (keyMatch g u) = false →
        Database.remove_whitelist_status s g u = (s, false)) ∧
    (s.any (keyMatch g u) = true →
        (Database.remove_whitelist_status s g u).2 = true) ∧
    (∀ r ∈ (Database.remove_whitelist_status s g u).1,
        keyMatch g u r = true → r.whitelisted = false) ∧
    (u ∉ (Database.call_whitelisted_ids
        (Database.remove_whitelist_status s g u).1 g).2) := by
  have hmem : ∀ r ∈ (Database.remove_whitelist_status s g u).1,
      keyMatch g u r = true → r.whitelisted = false := by
    intro r hr hk
    rcases List.mem_map.mp hr with ⟨q, hq, hfq⟩
    by_cases hkq : keyMatch g u q = true
    · rw [← hfq]
      simp [hkq]
    · rw [← hfq] at hk
      rw [if_neg hkq] at hk
      exact absurd hk hkq
  refine ⟨?_, ?_, hmem, ?_⟩
  · intro h
    have hall : ∀ r ∈ s, keyMatch g u r = false := by
      intro r hr
      have := List.any_eq_false.mp (by simpa using h) r hr
      simpa using this
    have hmapeq : (s.map fun r => if keyMatch g u r then
        { r with whitelisted := false } else r) = s := by
      calc (s.map fun r => if keyMatch g u r then
            { r with whitelisted := false } else r)
          = s.map id := by
            apply List.map_congr_left
            intro a ha
            simp [hall a ha]
        _ = s := List.map_id s
    have hfil : s.filter (keyMatch g u) = [] :=
      List.filter_eq_nil_iff.mpr (by intro a ha; simp [hall a ha])
    unfold Database.remove_whitelist_status
    rw [hmapeq, hfil]
    rfl
  · intro h
    rcases List.any_eq_true.mp h with ⟨r, hr, hkr⟩
    unfold Database.remove_whitelist_status
    have : r ∈ s.filter (keyMatch g u) := List.mem_filter.mpr ⟨hr, hkr⟩
    have hlen : 0 < (s.filter (keyMatch g u)).length :=
      List.length_pos.mpr (fun hnil => by rw [hnil] at this; cases this)
    simpa using hlen
  · intro hu
    rcases List.mem_map.mp hu with ⟨r, hr, hur⟩
    have hflt := List.mem_filter.mp hr
    have hguild : r.guildId = g := by
      have := hflt.2
      simp at this
      exact this.1
    have hwhite : r.whitelisted = true := by
      have := hflt.2
      simp at this
      exact this.2
    have hkr : keyMatch g u r = true := by
      simp [keyMatch, hguild, hur]
    have := hmem r hflt.1 hkr
    rw [this] at hwhite
    cases hwhite

/-- C3 witness: instantiating `revokeWhitelist_postcondition` on a
one-record store holding a whitelisted (1, 2). -/
theorem revokeWhitelist_witness :
    ([⟨1, 2, 20, true⟩] : Store).any (keyMatch 1 2) = true ∧
    (Database.remove_whitelist_status [⟨1, 2, 20, true⟩] 1 2).2 = true :=
  ⟨by decide,
   (revokeWhitelist_postcondition [⟨1, 2, 20, true⟩] 1 2).2.1 (by decide)⟩

/-- Store reached from the empty store by the two upserts of the C6
scenario: (g = 1, u = 1, t = 10, white = false) then
(g = 1, u = 2, t = 20, white = true). -/
def c6Store : Store :=
  (Database.make_or_update_entry
    (Database.make_or_update_entry [] 1 1 10 false).1 1 2 20 true).1

/-- C6: Concrete whitelist/inactive scenario: starting from the empty
store, after upsertActivity(1, 1, 10, false) and
upsertActivity(1, 2, 20, true), `call_whitelisted_ids 1` returns
exactly [2] and `call_memberids_inactive_users 1 15` returns exactly
[1]. -/
theorem whitelist_inactive_scenario :
    (Database.call_whitelisted_ids c6Store 1).2 = [2] ∧
    (Database.call_memberids_inactive_users c6Store 1 15).2 = [1] := by
  decide

/-- C4: listInactiveMemberIds returns exactly the filtered set: a
userId u is in the result iff the store holds a record for (g, u) with
timestamp below the threshold and whitelisted = false; in particular
the result never contains a userId all of whose records are
whitelisted. -/
theorem listInactiveMemberIds_characterization (s : Store)
    (g thr u : Int) :
    u ∈ (Database.call_memberids_inactive_users s g thr).2 ↔
      ∃ r ∈ s, r.guildId = g ∧ r.userId = u ∧ r.timestamp < thr ∧
        r.whitelisted = false := by
  unfold Database.call_memberids_inactive_users
  constructor
  · intro hu
    rcases List.mem_map.mp hu with ⟨r, hr, hur⟩
    rcases List.mem_filter.mp hr with ⟨hrs, hcond⟩
    simp at hcond
    obtain ⟨⟨hg, ht⟩, hw⟩ := hcond
    exact ⟨r, hrs, hg, hur, ht, hw⟩
  · intro hex
    rcases hex with ⟨r, hrs, hg, hu, ht, hw⟩
    apply List.mem_map.mpr
    refine ⟨r, List.mem_filter.mpr ⟨hrs, ?_⟩, hu⟩
    simp [hg, ht, hw]

theorem delMember_foldl_fst (pairs : List (Int × Int)) :
    ∀ (s : Store) (n : Nat),
      (pairs.foldl Database.delMemberStep (s, n)).1
        = s.filter fun r => !(pairs.any fun p => keyMatch p.1 p.2 r) := by
  induction pairs with
  | nil =>
    intro s n
    simp
  | cons p ps ih =>
    intro s n
    rw [List.foldl_cons]
    show (ps.foldl Database.delMemberStep
        ((s.filter fun r => !(keyMatch p.1 p.2 r)), _)).1 = _
    rw [ih]
    rw [List.filter_filter]
    apply List.filter_congr
    intro r hr
    simp [List.any_cons, Bool.and_comm]

/-- C8: deleteMembers frame condition: `delete_many_members` removes
exactly the records whose (guildId, userId) key appears in the input
sequence and leaves every other record — including other keys under
the same guilds — unchanged and in place. -/
theorem deleteMembers_frame (s : Store) (pairs : List (Int × Int)) :
    (Database.delete_many_members s pairs).1 =
      (s.filter fun r => !(pairs.any fun p => keyMatch p.1 p.2 r)) ∧
    ∀ r : Record, r ∈ (Database.delete_many_members s pairs).1 ↔
      (r ∈ s ∧ ∀ p ∈ pairs, ¬(r.guildId = p.1 ∧ r.userId = p.2)) := by
  have hfst : (Database.delete_many_members s pairs).1 =
      (s.filter fun r => !(pairs.any fun p => keyMatch p.1 p.2 r)) :=
    delMember_foldl_fst pairs s 0
  refine ⟨hfst, ?_⟩
  intro r
  rw [hfst, List.mem_filter]
  simp [keyMatch, not_and]

theorem insertByTimeDesc_perm (r : Record) (l : List Record) :
    (insertByTimeDesc r l).Perm (r :: l) := by
  induction l with
  | nil => simp [insertByTimeDesc]
  | cons q qs ih =>
    unfold insertByTimeDesc
    by_cases h : r.timestamp ≤ q.timestamp
    · rw [if_pos h]
      exact (ih.cons q).trans (List.Perm.swap r q qs)
    · rw [if_neg h]

theorem sortByTimeDesc_perm (l : List Record) : (sortByTimeDesc l).Perm l := by
  induction l with
  | nil => simp [sortByTimeDesc]
  | cons q qs ih =>
    show (insertByTimeDesc q (sortByTimeDesc qs)).Perm (q :: qs)
    exact (insertByTimeDesc_perm q _).trans (ih.cons q)

theorem insertByTimeDesc_pairwise (r : Record) (l : List Record)
    (hl : l.Pairwise fun a b => b.timestamp ≤ a.timestamp) :
    (insertByTimeDesc r l).Pairwise fun a b => b.timestamp ≤ a.timestamp := by
  induction l with
  | nil => simp [insertByTimeDesc]
  | cons q qs ih =>
    rcases List.pairwise_cons.mp hl with ⟨hq, hqs⟩
    unfold insertByTimeDesc
    by_cases h : r.timestamp ≤ q.timestamp
    · rw [if_pos h]
      apply List.pairwise_cons.mpr
      refine ⟨?_, ih hqs⟩
      intro x hx
      have hx' : x ∈ r :: qs := (insertByTimeDesc_perm r qs).mem_iff.mp hx
      rcases List.mem_cons.mp hx' with rfl | hxqs
      · exact h
      · exact hq x hxqs
    · rw [if_neg h]
      apply List.pairwise_cons.mpr
      refine ⟨?_, hl⟩
      intro x hx
      rcases List.mem_cons.mp hx with rfl | hxqs
      · exact le_of_not_le h
      · exact le_trans (hq x hxqs) (le_of_not_le h)

theorem sortByTimeDesc_pairwise (l : List Record) :
    (sortByTimeDesc l).Pairwise fun a b => b.timestamp ≤ a.timestamp := by
  induction l with
  | nil => simp [sortByTimeDesc]
  | cons q qs ih =>
    show (insertByTimeDesc q (sortByTimeDesc qs)).Pairwise _
    exact insertByTimeDesc_pairwise q _ ih

/-- Store of the C5 example: records (u = 1, t = 100), (u = 2, t = 50),
(u = 3, t = 80), all under guild 1 and none whitelisted. -/
def c5Store : Store :=
  [⟨1, 1, 100, false⟩, ⟨1, 2, 50, false⟩, ⟨1, 3, 80, false⟩]

/-- C5: listInactiveMembersWithTimestamp returns the (userId,
timestamp) pairs of exactly the records under the guild with timestamp
below the threshold and not whitelisted (a permutation of them, and a
pair is in the result iff such a record is stored), sorted by timestamp
in descending order; on the example store with timestamps 100, 50, 80
below threshold 200 it returns [(1, 100), (3, 80), (2, 50)]. -/
theorem listInactiveWithTimestamp_sorted_desc (s : Store) (g thr : Int) :
    ((Database.get_inactive_userids_and_timestamps s g thr).2).Perm
      ((s.filter fun r =>
          r.guildId == g && decide (r.timestamp < thr) && !r.whitelisted).map
        fun r => (r.userId, r.timestamp)) ∧
    (∀ p : Int × Int,
      p ∈ (Database.get_inactive_userids_and_timestamps s g thr).2 ↔
        ∃ r ∈ s, r.guildId = g ∧ r.userId = p.1 ∧ r.timestamp = p.2 ∧
          r.timestamp < thr ∧ r.whitelisted = false) ∧
    ((Database.get_inactive_userids_and_timestamps s g thr).2).Pairwise
      (fun a b => b.2 ≤ a.2) ∧
    (Database.get_inactive_userids_and_timestamps c5Store 1 200).2
      = [(1, 100), (3, 80), (2, 50)] := by
  have hperm : ((Database.get_inactive_userids_and_timestamps s g thr).2).Perm
      ((s.filter fun r =>
          r.guildId == g && decide (r.timestamp < thr) && !r.whitelisted).map
        fun r => (r.userId, r.timestamp)) :=
    (sortByTimeDesc_perm _).map _
  refine ⟨hperm, ?_, ?_, by decide⟩
  · intro p
    rw [hperm.mem_iff]
    constructor
    · intro hp
      rcases List.mem_map.mp hp with ⟨r, hr, hpr⟩
      rcases List.mem_filter.mp hr with ⟨hrs, hcond⟩
      simp at hcond
      obtain ⟨⟨hg, ht⟩, hw⟩ := hcond
      refine ⟨r, hrs, hg, ?_, ?_, ht, hw⟩
      · rw [← hpr]
      · rw [← hpr]
    · intro hex
      rcases hex with ⟨r, hrs, hg, hu, ht, hlt, hw⟩
      apply List.mem_map.mpr
      refine ⟨r, List.mem_filter.mpr ⟨hrs, ?_⟩, ?_⟩
      · simp [hg, hlt, hw]
      · rw [hu, ht]
  · show ((sortByTimeDesc _).map fun r => (r.userId, r.timestamp)).Pairwise _
    apply List.pairwise_map.mpr
    exact sortByTimeDesc_pairwise _

theorem find_unique_key (g u : Int) :
    ∀ s : Store, uniqueKeys s = true → ∀ q ∈ s, keyMatch g u q = true →
      s.find? (keyMatch g u) = some q := by
  intro s
  induction s with
  | nil =>
    intro _ q hq
    cases hq
  | cons r rs ih =>
    intro hs q hq hk
    have hs' : rs.any (keyMatch r.guildId r.userId) = false ∧
        uniqueKeys rs = true := by
      have h0 := hs
      unfold uniqueKeys at h0
      simpa using h0
    rcases List.mem_cons.mp hq with rfl | hqrs
    · exact List.find?_cons_of_pos _ hk
    · by_cases hkr : keyMatch g u r = true
      · exfalso
        have hgr := (keyMatch_iff g u r).mp hkr
        have hq' : keyMatch r.guildId r.userId q = true := by
          apply (keyMatch_iff _ _ q).mpr
          rw [hgr.1, hgr.2]
          exact (keyMatch_iff g u q).mp hk
        have hany : rs.any (keyMatch r.guildId r.userId) = true :=
          List.any_eq_true.mpr ⟨q, hqrs, hq'⟩
        rw [hs'.1] at hany
        cases hany
      · rw [List.find?_cons_of_neg _ (by simpa using hkr)]
        exact ih hs'.2 q hqrs hk

theorem filter_insertOrReplace_key2 (s : Store) (g u t : Int) (b : Bool) :
    ((insertOrReplace s ⟨g, u, t, b⟩).filter (keyMatch g u))
      = [⟨g, u, t, b⟩] :=
  filter_insertOrReplace_key s ⟨g, u, t, b⟩

theorem mem_insertOrReplace_key2 (s : Store) (g u t : Int) (b : Bool) :
    ∀ r ∈ insertOrReplace s ⟨g, u, t, b⟩,
      keyMatch g u r = true → r = ⟨g, u, t, b⟩ :=
  mem_insertOrReplace_key s ⟨g, u, t, b⟩

theorem find?_insertOrReplace_key (s : Store) (rec : Record) :
    (insertOrReplace s rec).find? (keyMatch rec.guildId rec.userId)
      = some rec := by
  unfold insertOrReplace
  rw [List.find?_append]
  have h1 : (s.filter fun q => !(keyMatch rec.guildId rec.userId q)).find?
      (keyMatch rec.guildId rec.userId) = none := by
    apply List.find?_eq_none.mpr
    intro x hx
    have hx2 := (List.mem_filter.mp hx).2
    simp at hx2
    simp [hx2]
  rw [h1]
  simp [keyMatch]

theorem find?_insertOrReplace_key2 (s : Store) (g u t : Int) (b : Bool) :
    (insertOrReplace s ⟨g, u, t, b⟩).find? (keyMatch g u)
      = some ⟨g, u, t, b⟩ :=
  find?_insertOrReplace_key s ⟨g, u, t, b⟩

theorem make_or_update_entry_def (s : Store) (g u t : Int) (w : Bool) :
    Database.make_or_update_entry s g u t w =
      (insertOrReplace s ⟨g, u, t,
        w || (match s.find? (keyMatch g u) with
              | some r => r.whitelisted
              | none => false)⟩, true) := by
  cases w
  · simp only [Database.make_or_update_entry]
    cases hfind : s.find? (keyMatch g u) with
    | none => simp [hfind]
    | some r0 => cases hw : r0.whitelisted <;> simp [hfind, hw]
  · simp only [Database.make_or_update_entry]
    simp

theorem stored_white_char (s : Store) (g u : Int)
    (hs : uniqueKeys s = true) :
    (match s.find? (keyMatch g u) with
     | some r => r.whitelisted
     | none => false) = true ↔
      ∃ q ∈ s, keyMatch g u q = true ∧ q.whitelisted = true := by
  cases hfind : s.find? (keyMatch g u) with
  | none =>
    simp only []
    constructor
    · intro h
      cases h
    · rintro ⟨q, hq, hk, -⟩
      have := List.find?_eq_none.mp hfind q hq
      simp at this
      rw [this] at hk
      cases hk
  | some r0 =>
    simp only []
    constructor
    · intro h
      exact ⟨r0, List.mem_of_find?_eq_some hfind, List.find?_some hfind, h⟩
    · rintro ⟨q, hq, hk, hw⟩
      have hq' := find_unique_key g u s hs q hq hk
      rw [hfind] at hq'
      injection hq' with h'
      rw [h']
      exact hw

/-- C1: upsertActivity postcondition with sticky whitelist: on any
store satisfying the primary-key invariant, after
`make_or_update_entry s g u t w` the store holds exactly one record
for (g, u); every record for (g, u) has the given timestamp and its
whitelisted flag is true iff `w` is true or (`w` is false and a record
for that key existed before the call with whitelisted = true); in
particular an upsert with explicit whitelist `true` followed by one
with `false` leaves whitelisted = true and the second timestamp. -/
theorem upsertActivity_postcondition (s : Store) (g u t : Int) (w : Bool)
    (hs : uniqueKeys s = true) :
    (((Database.make_or_update_entry s g u t w).1.filter
        (keyMatch g u)).length = 1) ∧
    (∀ r ∈ (Database.make_or_update_entry s g u t w).1,
        keyMatch g u r = true → r.timestamp = t ∧
          (r.whitelisted = true ↔
            (w = true ∨ (w = false ∧
              ∃ q ∈ s, keyMatch g u q = true ∧ q.whitelisted = true)))) ∧
    (∀ t1 t2 : Int,
        ∀ r ∈ (Database.make_or_update_entry
            (Database.make_or_update_entry s g u t1 true).1 g u t2 false).1,
          keyMatch g u r = true →
            r.whitelisted = true ∧ r.timestamp = t2) := by
  refine ⟨?_, ?_, ?_⟩
  · rw [make_or_update_entry_def]
    rw [show (insertOrReplace s ⟨g, u, t, _⟩, true).1
        = insertOrReplace s ⟨g, u, t, _⟩ from rfl]
    rw [filter_insertOrReplace_key2]
    rfl
  · intro r hr hk
    rw [make_or_update_entry_def] at hr
    have hrec := mem_insertOrReplace_key2 s g u t _ r hr hk
    rw [hrec]
    refine ⟨rfl, ?_⟩
    show (w || _) = true ↔ _
    cases w
    · simp only [Bool.false_or]
      rw [stored_white_char s g u hs]
      simp
    · simp
  · intro t1 t2 r hr hk
    have h1 : (Database.make_or_update_entry s g u t1 true).1
        = insertOrReplace s ⟨g, u, t1, true⟩ := by
      rw [make_or_update_entry_def]
      simp
    have h2 : (Database.make_or_update_entry
        (insertOrReplace s ⟨g, u, t1, true⟩) g u t2 false).1
        = insertOrReplace (insertOrReplace s ⟨g, u, t1, true⟩)
            ⟨g, u, t2, true⟩ := by
      rw [make_or_update_entry_def]
      rw [find?_insertOrReplace_key2]
      simp
    rw [h1, h2] at hr
    have hrec := mem_insertOrReplace_key2 _ g u t2 true r hr hk
    rw [hrec]
    exact ⟨rfl, rfl⟩

/-- C1 witness: instantiating `upsertActivity_postcondition` on the
empty store at (1, 1, 5, true). -/
theorem upsertActivity_witness :
    uniqueKeys [] = true ∧
    (((Database.make_or_update_entry [] 1 1 5 true).1.filter
        (keyMatch 1 1)).length = 1) :=
  ⟨rfl, (upsertActivity_postcondition [] 1 1 5 true rfl).1⟩
